import Mathlib

/-!
Shallow embedding of the litescope capture core (`litescope/core.py`) and
verification of its specification claims.

The embedding models, cycle by cycle, the synchronous logic of:

* `FrontendTrigger`   — combinational trigger matcher (`hitOf`, `triggerComb`);
* `FrontendSubSampler` — the decimation counter (`subStep`, `subRun`);
* `AnalyzerStorage`   — the IDLE/WAIT/RUN capture state machine driving the
  storage FIFO (`step`, `run`).

The storage FIFO (`stream.SyncFIFO([("data", dw)], depth//cd_ratio)`) is an
external library primitive; it is modelled as a bounded synchronous queue:
`level` is the element count at the start of the cycle, a push is accepted
when the queue is not full, a pop occurs when it is non-empty and the
consumer is ready, and a simultaneous push and pop are both honoured.
Each queue element is one wide memory word (`cd_ratio` raw samples after
width conversion).
-/

namespace Litescope

/-- The three states of the `AnalyzerStorage` FSM (`FSM(reset_state="IDLE")`). -/
inductive FsmState where
  | IDLE
  | WAIT
  | RUN
deriving DecidableEq, Repr

/-- Per-cycle inputs of `AnalyzerStorage`: the upstream stream endpoint
(`sink.valid`, `sink.data`, `sink.hit != 0`), the host `start` CSR pulse
(`start.re`) and the host readback pulse (`mem_ready.re & mem_ready.r`). -/
structure StIn where
  valid : Bool
  data : Nat
  hit : Bool
  start : Bool
  memReadyPulse : Bool
deriving DecidableEq, Repr

/-- Static configuration of `AnalyzerStorage`: the FIFO capacity
`depth//cd_ratio` and the `length` and `offset` CSR values. -/
structure StCfg where
  capacity : Nat
  length : Nat
  offset : Nat
deriving DecidableEq, Repr

/-- `AnalyzerStorage(dw, depth, cd_ratio)` instantiates its FIFO with
`depth//cd_ratio` entries; `length` and `offset` are host CSR values. -/
def mkCfg (depth cdRatio length offset : Nat) : StCfg :=
  ⟨depth / cdRatio, length, offset⟩

/-- State of `AnalyzerStorage`: the FSM state register and the FIFO
contents (oldest element first; pops take the head, pushes append). -/
structure StState where
  fsm : FsmState
  q : List Nat
deriving DecidableEq, Repr

/-- Reset state: FSM in IDLE, FIFO empty. -/
def stInit : StState := ⟨FsmState.IDLE, []⟩

/-- Write readiness `mem.sink.ready`: the FIFO accepts a write while not full. -/
def memSinkReady (cfg : StCfg) (s : StState) : Bool :=
  s.q.length < cfg.capacity

/-- Read validity `mem.source.valid`: the FIFO presents a word while non-empty. -/
def memSourceValid (s : StState) : Bool :=
  !s.q.isEmpty

/-- Readback register `mem_data.status = mem.source.data`: the word at the FIFO output. -/
def memData (s : StState) : Nat :=
  s.q.headD 0

/-- Write validity `mem.sink.valid`: driven by `sink.connect(mem.sink)` in WAIT and RUN
only; in IDLE the FIFO write port is not driven. -/
def memSinkValid (s : StState) (i : StIn) : Bool :=
  match s.fsm with
  | FsmState.IDLE => false
  | _ => i.valid

/-- Exit condition of RUN, checked combinationally every cycle:
`~mem.sink.ready | (mem.level >= length)`. -/
def exitCond (cfg : StCfg) (s : StState) : Bool :=
  !memSinkReady cfg s || cfg.length ≤ s.q.length

/-- Read readiness `mem.source.ready` as each FSM state drives it:
IDLE host pop pulse, WAIT drain at `mem.level >= offset`,
RUN pop only on the exit condition. -/
def memSourceReady (cfg : StCfg) (s : StState) (i : StIn) : Bool :=
  match s.fsm with
  | FsmState.IDLE => i.memReadyPulse
  | FsmState.WAIT => cfg.offset ≤ s.q.length
  | FsmState.RUN => exitCond cfg s

/-- Upstream `sink.ready`: IDLE discards freely,
WAIT and RUN forward the FIFO's readiness. -/
def sinkReady (cfg : StCfg) (s : StState) : Bool :=
  match s.fsm with
  | FsmState.IDLE => true
  | _ => memSinkReady cfg s

/-- The `NextState` targets of the three `fsm.act` blocks. -/
def nextFsm (cfg : StCfg) (s : StState) (i : StIn) : FsmState :=
  match s.fsm with
  | FsmState.IDLE => if i.start then FsmState.WAIT else FsmState.IDLE
  | FsmState.WAIT => if i.valid && i.hit then FsmState.RUN else FsmState.WAIT
  | FsmState.RUN => if exitCond cfg s then FsmState.IDLE else FsmState.RUN

/-- A FIFO write happens when the write port is driven valid and ready. -/
def doPush (cfg : StCfg) (s : StState) (i : StIn) : Bool :=
  memSinkValid s i && memSinkReady cfg s

/-- A FIFO read happens when the read port is valid and ready. -/
def doPop (cfg : StCfg) (s : StState) (i : StIn) : Bool :=
  memSourceValid s && memSourceReady cfg s i

/-- One synchronous cycle of `AnalyzerStorage`: the FSM register takes its
`NextState` and the FIFO applies the cycle's pop and push. -/
def step (cfg : StCfg) (i : StIn) (s : StState) : StState :=
  { fsm := nextFsm cfg s i
    q := (if doPop cfg s i then s.q.tail else s.q) ++
         (if doPush cfg s i then [i.data] else []) }

/-- Execution from reset under the input stream `ins`: `run cfg ins t` is
the state at the start of cycle `t`. -/
def run (cfg : StCfg) (ins : Nat → StIn) : Nat → StState
  | 0 => stInit
  | t + 1 => step cfg (ins t) (run cfg ins t)

/-- Number of raw samples held by the buffer: each FIFO word packs
`cd_ratio` samples (layout `core_layout(dw*cd_ratio, cd_ratio)`). -/
def samplesHeld (cdRatio : Nat) (s : StState) : Nat :=
  cdRatio * s.q.length

/-- An input stream built from a finite list; cycles beyond the list are
idle (nothing valid, no pulses). -/
def insOf (l : List StIn) : Nat → StIn :=
  fun t => l.getD t ⟨false, 0, false, false, false⟩

/-- The contiguous sample window `[d a, d (a+1), ..., d (a+n-1)]`. -/
def window (d : Nat → Nat) : Nat → Nat → List Nat
  | _, 0 => []
  | a, n + 1 => d a :: window d (a + 1) n

/-! ### `FrontendTrigger` (combinational) -/

/-- The hit computation of `FrontendTrigger`:
`source.hit.eq((self.sink.data & mask) == value)`, over the synchronized
`mask`/`value` registers. -/
def hitOf (mask value data : Nat) : Bool :=
  (data &&& mask) == value

/-- Combinational outputs of `FrontendTrigger` for one cycle. -/
structure TrigOut where
  srcValid : Bool
  srcData : Nat
  srcHit : Bool
  sinkReady : Bool
deriving DecidableEq, Repr

/-- The combinational block of `FrontendTrigger`: `sink.connect(source)`
copies `valid`, the payload and (backwards) `ready`, then the later comb
statement overrides `source.hit` with the pattern match. -/
def triggerComb (mask value : Nat) (sinkValid : Bool) (sinkData : Nat)
    (sinkHit : Bool) (srcReady : Bool) : TrigOut :=
  let connected : TrigOut := ⟨sinkValid, sinkData, sinkHit, srcReady⟩
  { connected with srcHit := hitOf mask value sinkData }

/-- Stream view of `FrontendTrigger`: each data word of the input stream is
mapped to itself paired with its computed hit flag. -/
def triggerStream (mask value : Nat) (l : List Nat) : List (Nat × Bool) :=
  l.map fun dta => ((triggerComb mask value true dta false true).srcData,
                    (triggerComb mask value true dta false true).srcHit)

/-! ### `FrontendSubSampler` -/

/-- Per-cycle inputs of `FrontendSubSampler`: the input `sink.valid` and the
downstream `source.ready`. -/
structure SubIn where
  valid : Bool
  ready : Bool
deriving DecidableEq, Repr

/-- One synchronous cycle of the `FrontendSubSampler` counter:
```
If(self.source.ready,
    If(done, counter.eq(0)
    ).Elif(self.sink.valid, counter.eq(counter + 1)))
```
with `done = (counter == value)`; the counter register is 16 bits wide. -/
def subStep (value : Nat) (i : SubIn) (counter : Nat) : Nat :=
  if i.ready then
    if counter == value then 0
    else if i.valid then (counter + 1) % 65536
    else counter
  else counter

/-- The counter of `FrontendSubSampler` along an execution from reset. -/
def subRun (value : Nat) (ins : Nat → SubIn) : Nat → Nat
  | 0 => 0
  | t + 1 => subStep value (ins t) (subRun value ins t)

/-- Output validity `source.valid.eq(self.sink.valid & done)`. -/
def subSrcValid (value : Nat) (ins : Nat → SubIn) (t : Nat) : Bool :=
  (ins t).valid && (subRun value ins t == value)

/-- An input sample is accepted when `sink.valid & sink.ready`
(`sink.ready` is `source.ready`, via `connect` leaving out `valid`). -/
def subAccepted (ins : Nat → SubIn) (t : Nat) : Bool :=
  (ins t).valid && (ins t).ready

/-- An output sample is emitted when `source.valid & source.ready`. -/
def subEmitted (value : Nat) (ins : Nat → SubIn) (t : Nat) : Bool :=
  subSrcValid value ins t && (ins t).ready

/-- Number of input samples accepted strictly before cycle `t`. -/
def subAccCount (ins : Nat → SubIn) : Nat → Nat
  | 0 => 0
  | t + 1 => subAccCount ins t + (if subAccepted ins t then 1 else 0)

/-! ### Helper lemmas -/

theorem run_succ (cfg : StCfg) (ins : Nat → StIn) (t : Nat) :
    run cfg ins (t + 1) = step cfg (ins t) (run cfg ins t) :=
  rfl

theorem window_length (d : Nat → Nat) (a n : Nat) : (window d a n).length = n := by
  induction n generalizing a with
  | zero => rfl
  | succ n ih => simp [window, ih]

theorem window_concat (d : Nat → Nat) (a n : Nat) :
    window d a (n + 1) = window d a n ++ [d (a + n)] := by
  induction n generalizing a with
  | zero => simp [window]
  | succ n ih =>
    calc window d a (n + 2) = d a :: window d (a + 1) (n + 1) := rfl
    _ = d a :: (window d (a + 1) n ++ [d (a + 1 + n)]) := by rw [ih]
    _ = window d a (n + 1) ++ [d (a + (n + 1))] := by
          simp [window, Nat.add_assoc, Nat.add_comm 1 n]

theorem doPop_ne_nil {cfg : StCfg} {s : StState} {i : StIn}
    (h : doPop cfg s i = true) : s.q ≠ [] := by
  intro hq
  simp [doPop, memSourceValid, hq] at h

theorem doPop_of_full (cfg : StCfg) (i : StIn) (s : StState)
    (h1 : cfg.offset ≤ cfg.length) (h2 : 1 ≤ cfg.length)
    (hfsm : s.fsm ≠ FsmState.IDLE) (hl : cfg.length ≤ s.q.length) :
    doPop cfg s i = true := by
  have hne : s.q.isEmpty = false := by
    cases hq : s.q with
    | nil => rw [hq] at hl; simp at hl; omega
    | cons a l => rfl
  cases hf : s.fsm with
  | IDLE => exact absurd hf hfsm
  | WAIT =>
    simp [doPop, memSourceValid, memSourceReady, hf, hne]
    omega
  | RUN =>
    simp [doPop, memSourceValid, memSourceReady, exitCond, hf, hne]
    omega

theorem step_len_le (cfg : StCfg) (i : StIn) (s : StState)
    (h1 : cfg.offset ≤ cfg.length) (h2 : 1 ≤ cfg.length)
    (hs : s.q.length ≤ cfg.length) :
    (step cfg i s).q.length ≤ cfg.length := by
  by_cases hu : doPush cfg s i = true
  · by_cases hp : doPop cfg s i = true
    · have h3 : s.q ≠ [] := doPop_ne_nil hp
      have h4 : 1 ≤ s.q.length := List.length_pos.mpr h3
      simp [step, hp, hu]
      omega
    · have hfsm : s.fsm ≠ FsmState.IDLE := by
        intro h
        simp [doPush, memSinkValid, h] at hu
      have hlt : s.q.length < cfg.length := by
        rcases Nat.lt_or_ge s.q.length cfg.length with h | h
        · exact h
        · exact absurd (doPop_of_full cfg i s h1 h2 hfsm h) hp
      simp [step, hp, hu]
      omega
  · by_cases hp : doPop cfg s i = true <;> simp [step, hp, hu] <;> omega

theorem level_le_length (cfg : StCfg) (ins : Nat → StIn)
    (h1 : cfg.offset ≤ cfg.length) (h2 : 1 ≤ cfg.length) :
    ∀ t, (run cfg ins t).q.length ≤ cfg.length := by
  intro t
  induction t with
  | zero => simp [run, stInit]
  | succ t ih => exact step_len_le cfg (ins t) (run cfg ins t) h1 h2 ih

theorem step_wait_floor (cfg : StCfg) (i : StIn) (s : StState)
    (hf : s.fsm = FsmState.WAIT) (h : cfg.offset - 1 ≤ s.q.length) :
    cfg.offset - 1 ≤ (step cfg i s).q.length := by
  by_cases hp : doPop cfg s i = true
  · have hge : cfg.offset ≤ s.q.length := by
      simp [doPop, memSourceReady, hf] at hp
      exact hp.2
    by_cases hu : doPush cfg s i = true <;> simp [step, hp, hu] <;> omega
  · by_cases hu : doPush cfg s i = true <;> simp [step, hp, hu] <;> omega

theorem step_run_cases (cfg : StCfg) (i : StIn) (s : StState)
    (hf : s.fsm = FsmState.RUN) :
    ((step cfg i s).fsm = FsmState.IDLE ↔ exitCond cfg s = true) ∧
    (exitCond cfg s = true →
      (step cfg i s).q = s.q.tail ++
        (if doPush cfg s i then [i.data] else [])) ∧
    (exitCond cfg s = false →
      (step cfg i s).q = s.q ++
        (if doPush cfg s i then [i.data] else [])) := by
  refine ⟨?_, ?_, ?_⟩
  · cases he : exitCond cfg s
    · simp [step, nextFsm, hf, he]
    · simp [step, nextFsm, hf, he]
  · intro he
    by_cases hq : s.q = []
    · have hp : doPop cfg s i = false := by
        simp [doPop, memSourceValid, hq]
      simp [step, hp, hq]
    · have hne : s.q.isEmpty = false := by
        cases hqq : s.q with
        | nil => exact absurd hqq hq
        | cons a l => rfl
      have hp : doPop cfg s i = true := by
        simp [doPop, memSourceValid, memSourceReady, hf, he, hne]
      simp [step, hp]
  · intro he
    have hp : doPop cfg s i = false := by
      simp [doPop, memSourceReady, hf, he]
    simp [step, hp]

theorem step_run_exit_pop (cfg : StCfg) (i : StIn) (s : StState)
    (hf : s.fsm = FsmState.RUN) (hl : cfg.length ≤ s.q.length)
    (h1 : 1 ≤ s.q.length) (hv : i.valid = false) :
    (step cfg i s).fsm = FsmState.IDLE ∧ (step cfg i s).q = s.q.tail := by
  have he : exitCond cfg s = true := by
    simp [exitCond, hl]
  have hu : doPush cfg s i = false := by
    simp [doPush, memSinkValid, hf, hv]
  obtain ⟨hiff, hq, _⟩ := step_run_cases cfg i s hf
  refine ⟨hiff.mpr he, ?_⟩
  rw [hq he, hu]
  simp

/-! ### Concrete traces used by counterexamples and witnesses -/

/-- Input cycle carrying only the host `start` pulse. -/
def cexStart : StIn := ⟨false, 0, false, true, false⟩

/-- Idle input cycle: no sample, no pulses. -/
def cexIdle : StIn := ⟨false, 0, false, false, false⟩

/-- Input cycle with a valid non-hit sample `d`. -/
def cexV (d : Nat) : StIn := ⟨true, d, false, false, false⟩

/-- Input cycle with a valid hit sample `d`. -/
def cexH (d : Nat) : StIn := ⟨true, d, true, false, false⟩

/-- Input cycle carrying only the host `mem_ready` pulse. -/
def cexPop : StIn := ⟨false, 0, false, false, true⟩

/-- Configuration with capacity 4, `length = 2`, `offset = 1`. -/
def c1cfg : StCfg := ⟨4, 2, 1⟩

/-- Trace with a sample arriving on the RUN exit cycle. -/
def c1ins : Nat → StIn := insOf [cexStart, cexH 1, cexV 2, cexV 3]

/-- Trace whose RUN exit cycle has no incoming sample. -/
def c1wins : Nat → StIn := insOf [cexStart, cexH 1, cexV 2]

/-! ### Claims -/

/-- Claim C1 (amended): in RUN the exit condition
`(a) buffer cannot accept a sample, or (b) fill level at least length`
is checked every cycle; on the first cycle it holds the controller pops
one word from the buffer tail and is in IDLE on the next cycle; a capture
that reached fill level `length` returns to IDLE with `length - 1` words
when no new sample is accepted on the exit cycle (a concurrently accepted
sample makes it `length`). -/
theorem c1_run_exit (cfg : StCfg) (ins : Nat → StIn) (t : Nat)
    (hf : (run cfg ins t).fsm = FsmState.RUN) :
    ((run cfg ins (t + 1)).fsm = FsmState.IDLE ↔
      exitCond cfg (run cfg ins t) = true) ∧
    (exitCond cfg (run cfg ins t) = true →
      (run cfg ins (t + 1)).q = (run cfg ins t).q.tail ++
        (if doPush cfg (run cfg ins t) (ins t) then [(ins t).data] else [])) ∧
    ((run cfg ins t).q.length = cfg.length → 1 ≤ cfg.length →
      (ins t).valid = false →
      (run cfg ins (t + 1)).fsm = FsmState.IDLE ∧
      (run cfg ins (t + 1)).q.length = cfg.length - 1) := by
  obtain ⟨hiff, hpop, _⟩ := step_run_cases cfg (ins t) (run cfg ins t) hf
  refine ⟨hiff, hpop, ?_⟩
  intro hl h1 hv
  obtain ⟨ha, hb⟩ := step_run_exit_pop cfg (ins t) (run cfg ins t) hf
    (le_of_eq hl.symm) (by omega) hv
  refine ⟨ha, ?_⟩
  rw [run_succ, hb, List.length_tail, hl]

/-- Counterexample to C1 as frozen: with capacity 4, `length = 2`,
`offset = 1` and a sample arriving on the exit cycle, the capture reaches
fill level `length` in RUN at cycle 3 and returns to IDLE at cycle 4
holding `length` samples, not `length - 1`. -/
theorem c1_run_exit_cex :
    (run c1cfg c1ins 3).fsm = FsmState.RUN ∧
    (run c1cfg c1ins 3).q.length = c1cfg.length ∧
    (run c1cfg c1ins 4).fsm = FsmState.IDLE ∧
    (run c1cfg c1ins 4).q.length = 2 ∧
    c1cfg.length - 1 = 1 := by
  decide

/-- Witness for C1 (amended): same configuration, but the exit cycle has
no incoming sample: the buffer returns to IDLE with `length - 1` words. -/
theorem c1_run_exit_witness :
    (run c1cfg c1wins 4).fsm = FsmState.IDLE ∧
    (run c1cfg c1wins 4).q.length = c1cfg.length - 1 :=
  (c1_run_exit c1cfg c1wins 3 (by decide)).2.2 (by decide) (by decide)
    (by decide)

/-- Configuration with capacity 4 and `offset = 5` larger than the
capacity, so the FIFO can fill up during WAIT. -/
def c4cfg : StCfg := ⟨4, 7, 5⟩

/-- Trace that fills the FIFO in WAIT, then presents a hit sample. -/
def c4ins : Nat → StIn :=
  insOf [cexStart, cexV 1, cexV 2, cexV 3, cexV 4, cexH 9]

/-- Claim C4 (amended): in WAIT the controller is in RUN on the next
cycle exactly when a valid sample with hit flag 1 is presented this
cycle — whether or not it is actually written (with a full buffer the hit
sample is dropped yet the transition still occurs); in particular any
written hit sample causes the transition. -/
theorem c4_wait_to_run (cfg : StCfg) (ins : Nat → StIn) (t : Nat)
    (hW : (run cfg ins t).fsm = FsmState.WAIT) :
    ((run cfg ins (t + 1)).fsm = FsmState.RUN ↔
      ((ins t).valid = true ∧ (ins t).hit = true)) ∧
    (doPush cfg (run cfg ins t) (ins t) = true → (ins t).hit = true →
      (run cfg ins (t + 1)).fsm = FsmState.RUN) := by
  have hfsm : (run cfg ins (t + 1)).fsm =
      nextFsm cfg (run cfg ins t) (ins t) := rfl
  constructor
  · rw [hfsm]
    cases hv : (ins t).valid <;> cases hh : (ins t).hit <;>
      simp [nextFsm, hW, hv, hh]
  · intro hpu hh
    have hv : (ins t).valid = true := by
      simp [doPush, memSinkValid, hW] at hpu
      exact hpu.1
    rw [hfsm]
    simp [nextFsm, hW, hv, hh]

/-- Counterexample to C4 as frozen: with `offset = 5` above the capacity
4, WAIT fills the FIFO without draining; at cycle 5 a valid hit sample is
presented but not written (the FIFO is full, `doPush` is false), no hit
sample was written at any earlier cycle either, and the controller is
nonetheless in RUN at cycle 6 with the buffer unchanged. -/
theorem c4_wait_to_run_cex :
    (run c4cfg c4ins 5).fsm = FsmState.WAIT ∧
    (c4ins 5).valid = true ∧ (c4ins 5).hit = true ∧
    doPush c4cfg (run c4cfg c4ins 5) (c4ins 5) = false ∧
    (run c4cfg c4ins 6).q = (run c4cfg c4ins 5).q ∧
    (∀ u, u < 5 → (c4ins u).hit = false) ∧
    (run c4cfg c4ins 6).fsm = FsmState.RUN := by
  decide

/-- Witness for C4 (amended): applied to cycle 5 of the full-buffer
trace, the presented hit sample puts the controller in RUN at cycle 6. -/
theorem c4_wait_to_run_witness :
    (run c4cfg c4ins 6).fsm = FsmState.RUN :=
  (c4_wait_to_run c4cfg c4ins 5 (by decide)).1.mpr (by decide)

/-- Configuration with capacity 4, `length = 3`, `offset = 2`. -/
def c7cfg : StCfg := ⟨4, 3, 2⟩

/-- Trace where the host pulses `mem_ready` during WAIT. -/
def c7ins : Nat → StIn := insOf [cexStart, cexV 1, cexPop, cexV 2, cexIdle]

/-- Trace ending in IDLE with leftover content and a host pop. -/
def c7wins : Nat → StIn := insOf [cexStart, cexH 1, cexV 2, cexIdle, cexPop]

/-- Claim C7 (amended): only in IDLE does the host handshake drive the
buffer read port: there, when `mem_valid` is set and the host pulses
`mem_ready`, exactly one word is popped and it is the word exposed on
`mem_data`, and without the pulse the buffer is untouched; in WAIT and
RUN the host pulse is ignored — the cycle's outcome is identical with or
without it — and the controller itself drains the buffer. -/
theorem c7_host_readback (cfg : StCfg) (ins : Nat → StIn) (t : Nat) :
    ((run cfg ins t).fsm = FsmState.IDLE →
      memSourceValid (run cfg ins t) = true → (ins t).memReadyPulse = true →
      (run cfg ins t).q = memData (run cfg ins t) :: (run cfg ins (t + 1)).q) ∧
    ((run cfg ins t).fsm = FsmState.IDLE → (ins t).memReadyPulse = false →
      (run cfg ins (t + 1)).q = (run cfg ins t).q) ∧
    ((run cfg ins t).fsm ≠ FsmState.IDLE → ∀ j : StIn,
      j.valid = (ins t).valid → j.data = (ins t).data →
      j.hit = (ins t).hit → j.start = (ins t).start →
      step cfg j (run cfg ins t) = run cfg ins (t + 1)) := by
  refine ⟨?_, ?_, ?_⟩
  · intro hI hval hpulse
    have hp : doPop cfg (run cfg ins t) (ins t) = true := by
      simp [doPop, memSourceReady, hI, hval, hpulse]
    have hu : doPush cfg (run cfg ins t) (ins t) = false := by
      simp [doPush, memSinkValid, hI]
    have hq : (run cfg ins (t + 1)).q = (run cfg ins t).q.tail := by
      rw [run_succ]
      simp [step, hp, hu]
    rw [hq]
    cases hqq : (run cfg ins t).q with
    | nil => simp [memSourceValid, hqq] at hval
    | cons a l => simp [memData, hqq]
  · intro hI hpulse
    have hp : doPop cfg (run cfg ins t) (ins t) = false := by
      simp [doPop, memSourceReady, hI, hpulse]
    have hu : doPush cfg (run cfg ins t) (ins t) = false := by
      simp [doPush, memSinkValid, hI]
    rw [run_succ]
    simp [step, hp, hu]
  · intro hI j hv hd hh hs
    rw [run_succ]
    cases hfq : (run cfg ins t).fsm with
    | IDLE => exact absurd hfq hI
    | WAIT =>
      simp [step, nextFsm, doPush, doPop, memSinkValid, memSourceReady, hfq,
        hv, hd, hh]
    | RUN =>
      simp [step, nextFsm, doPush, doPop, memSinkValid, memSourceReady, hfq,
        hv, hd, hh]

/-- Counterexample to C7 as frozen: in WAIT at cycle 2 the buffer is
non-empty (`mem_valid` set) and the host pulses `mem_ready`, yet nothing
is popped (fill level 1 is below `offset = 2`); later, between cycles 4
and 5, a word leaves the buffer although the host never pulsed — so the
host handshake neither pops in every state nor is it the only way content
leaves the buffer. -/
theorem c7_host_readback_cex :
    (run c7cfg c7ins 2).fsm = FsmState.WAIT ∧
    memSourceValid (run c7cfg c7ins 2) = true ∧
    (c7ins 2).memReadyPulse = true ∧
    (run c7cfg c7ins 3).q = (run c7cfg c7ins 2).q ∧
    (c7ins 4).memReadyPulse = false ∧
    (run c7cfg c7ins 4).q = [1, 2] ∧
    (run c7cfg c7ins 5).q = [2] := by
  decide

/-- Witness for C7 (amended): an IDLE readback on cycle 4 pops exactly
the word exposed on `mem_data`. -/
theorem c7_host_readback_witness :
    (run c1cfg c7wins 4).q =
      memData (run c1cfg c7wins 4) :: (run c1cfg c7wins 5).q :=
  (c7_host_readback c1cfg c7wins 4).1 (by decide) (by decide) (by decide)

/-- Trace completing a `cd_ratio = 2` capture with `length = 3` words. -/
def c8ins : Nat → StIn :=
  insOf [cexStart, cexV 10, cexH 11, cexV 12, cexV 13, cexIdle]

/-- Configuration with `offset = 2` larger than `length = 1`. -/
def c2cfg : StCfg := ⟨4, 1, 2⟩

/-- Trace reaching WAIT steady state, then a gap, then a hit. -/
def c2ins : Nat → StIn :=
  insOf [cexStart, cexV 1, cexV 2, cexIdle, cexH 3, cexIdle]

/-- Configuration with `length = 0`. -/
def c2cfgB : StCfg := ⟨4, 0, 0⟩

/-- Trace triggering immediately under `length = 0`. -/
def c2insB : Nat → StIn := insOf [cexStart, cexH 5, cexIdle]

/-- Claim C2 (amended): provided `offset <= length` and `1 <= length`,
every reachable cycle in RUN has the buffer holding at most `length`
words; and once the WAIT fill level has reached `offset`, at least
`offset - 1` words are retained as long as the controller stays in WAIT
(a drain cycle with no concurrently accepted sample dips the level to
`offset - 1`). -/
theorem c2_buffer_invariants (cfg : StCfg) (ins : Nat → StIn)
    (h1 : cfg.offset ≤ cfg.length) (h2 : 1 ≤ cfg.length) :
    (∀ t, (run cfg ins t).fsm = FsmState.RUN →
      (run cfg ins t).q.length ≤ cfg.length) ∧
    (∀ t dt, (run cfg ins t).fsm = FsmState.WAIT →
      cfg.offset ≤ (run cfg ins t).q.length →
      (∀ u, u < dt → (run cfg ins (t + u)).fsm = FsmState.WAIT) →
      cfg.offset - 1 ≤ (run cfg ins (t + dt)).q.length) := by
  constructor
  · intro t _
    exact level_le_length cfg ins h1 h2 t
  · intro t dt hW h0 hall
    induction dt with
    | zero => simpa using le_trans (Nat.sub_le cfg.offset 1) h0
    | succ dt ih =>
      have hWdt : (run cfg ins (t + dt)).fsm = FsmState.WAIT := by
        cases dt with
        | zero => simpa using hW
        | succ d => exact hall (d + 1) (by omega)
      have hprev := ih fun u hu => hall u (by omega)
      have heq : t + (dt + 1) = (t + dt) + 1 := by omega
      rw [heq, run_succ]
      exact step_wait_floor cfg (ins (t + dt)) (run cfg ins (t + dt)) hWdt
        hprev

/-- Counterexample to C2 as frozen: with `offset = 2 > length = 1` the
controller is in RUN at cycle 5 with 2 words, more than `length`; the
same trace reaches the WAIT steady state (fill level `offset`) at cycle 3
yet holds only 1 word at cycle 4, below `offset`, before the trigger has
fired; and with `length = 0` RUN holds 1 word, more than `length`. -/
theorem c2_buffer_invariants_cex :
    (run c2cfg c2ins 5).fsm = FsmState.RUN ∧
    (run c2cfg c2ins 5).q.length = 2 ∧ c2cfg.length = 1 ∧
    (run c2cfg c2ins 3).fsm = FsmState.WAIT ∧
    (run c2cfg c2ins 3).q.length = c2cfg.offset ∧
    (run c2cfg c2ins 4).fsm = FsmState.WAIT ∧
    (run c2cfg c2ins 4).q.length = 1 ∧ c2cfg.offset = 2 ∧
    (run c2cfgB c2insB 2).fsm = FsmState.RUN ∧
    (run c2cfgB c2insB 2).q.length = 1 ∧ c2cfgB.length = 0 := by
  decide

/-- Witness for C2 (amended): under capacity 4, `length = 3`,
`offset = 1`, the RUN cycle 5 of a completed capture holds at most
`length` words. -/
theorem c2_buffer_invariants_witness :
    (run (mkCfg 8 2 3 1) c8ins 5).q.length ≤ (mkCfg 8 2 3 1).length :=
  (c2_buffer_invariants (mkCfg 8 2 3 1) c8ins (by decide) (by decide)).1 5
    (by decide)

/-- Claim C8 (amended): `length` and `offset` are counted in FIFO words
of `cd_ratio` samples each (the FIFO holds `depth / cd_ratio` words and
`mem.level` is compared against the CSR values directly), so a capture
completed by the fill-level exit with no concurrent write returns to IDLE
with `length - 1` words, that is `cd_ratio * (length - 1)` samples — for
`cd_ratio = 1` this is `length - 1` samples, but for `cd_ratio > 1` the
parameters are not in samples. -/
theorem c8_params_count_words (depth cdRatio length offset : Nat)
    (ins : Nat → StIn) (t : Nat)
    (hf : (run (mkCfg depth cdRatio length offset) ins t).fsm =
      FsmState.RUN)
    (hl : (run (mkCfg depth cdRatio length offset) ins t).q.length = length)
    (h1 : 1 ≤ length) (hv : (ins t).valid = false) :
    (run (mkCfg depth cdRatio length offset) ins (t + 1)).fsm =
      FsmState.IDLE ∧
    (run (mkCfg depth cdRatio length offset) ins (t + 1)).q.length =
      length - 1 ∧
    samplesHeld cdRatio (run (mkCfg depth cdRatio length offset) ins (t + 1)) =
      cdRatio * (length - 1) := by
  obtain ⟨ha, hb⟩ := step_run_exit_pop (mkCfg depth cdRatio length offset)
    (ins t) (run (mkCfg depth cdRatio length offset) ins t) hf
    (le_of_eq hl.symm) (by omega) hv
  refine ⟨ha, ?_, ?_⟩
  · rw [run_succ, hb, List.length_tail, hl]
  · simp only [samplesHeld]
    rw [run_succ, hb, List.length_tail, hl]

/-- Counterexample to C8 as frozen: with `depth = 8`, `cd_ratio = 2`,
`length = 3`, `offset = 1`, the completed capture returns to IDLE at
cycle 6 holding 4 samples — neither `length` nor `length - 1` samples —
because the comparisons count 2-sample words. -/
theorem c8_params_count_words_cex :
    (run (mkCfg 8 2 3 1) c8ins 5).fsm = FsmState.RUN ∧
    (run (mkCfg 8 2 3 1) c8ins 6).fsm = FsmState.IDLE ∧
    samplesHeld 2 (run (mkCfg 8 2 3 1) c8ins 6) = 4 ∧
    (run (mkCfg 8 2 3 1) c8ins 6).q.length = 2 ∧
    samplesHeld 2 (run (mkCfg 8 2 3 1) c8ins 6) ≠ 3 ∧
    samplesHeld 2 (run (mkCfg 8 2 3 1) c8ins 6) ≠ 3 - 1 := by
  decide

/-- Witness for C8 (amended): the `cd_ratio = 2` capture with
`length = 3` words completes holding `3 - 1` words, i.e. `2 * (3 - 1)`
samples. -/
theorem c8_params_count_words_witness :
    (run (mkCfg 8 2 3 1) c8ins 6).fsm = FsmState.IDLE ∧
    (run (mkCfg 8 2 3 1) c8ins 6).q.length = 3 - 1 ∧
    samplesHeld 2 (run (mkCfg 8 2 3 1) c8ins 6) = 2 * (3 - 1) :=
  c8_params_count_words 8 2 3 1 c8ins 5 (by decide) (by decide) (by decide)
    (by decide)

/-- Claim C6 (confirmed): the Trigger Matcher is a pure combinational
mapping: each sample's data field passes through unmodified, its hit flag
is computed as `(data & mask) == value` over the synchronized
configuration, and the valid/ready handshake is passed through unchanged,
so the stream is never blocked, dropped, or reordered (the output stream
is the input stream with hit flags attached). -/
theorem c6_trigger_pure_map (mask value dta : Nat) (vld hitIn rdy : Bool)
    (l : List Nat) :
    (triggerComb mask value vld dta hitIn rdy).srcValid = vld ∧
    (triggerComb mask value vld dta hitIn rdy).sinkReady = rdy ∧
    (triggerComb mask value vld dta hitIn rdy).srcData = dta ∧
    ((triggerComb mask value vld dta hitIn rdy).srcHit = true ↔
      dta &&& mask = value) ∧
    (triggerStream mask value l).map Prod.fst = l ∧
    (triggerStream mask value l).map Prod.snd = l.map (hitOf mask value) := by
  refine ⟨rfl, rfl, rfl, ?_, ?_, ?_⟩
  · simp [triggerComb, hitOf]
  · induction l with
    | nil => rfl
    | cons x xs ih => simpa [triggerStream, triggerComb] using ih
  · simp [triggerStream, triggerComb, Function.comp]

/-- Claim C9 (confirmed): if the trigger `value` has any bit set outside
`mask` (that is `value & ~mask != 0` over the `w`-bit operands), then the
computed hit flag is false for every possible sample, so no sample can
trigger a capture under such a configuration. -/
theorem c9_unmatchable_config (w mask value : Nat) (hm : mask < 2 ^ w)
    (hnz : value &&& (mask ^^^ (2 ^ w - 1)) ≠ 0) (dta : Nat) :
    hitOf mask value dta = false := by
  by_contra h
  have ht : hitOf mask value dta = true := by
    cases hh : hitOf mask value dta
    · exact absurd hh h
    · rfl
  have hd : dta &&& mask = value := by simpa [hitOf] using ht
  apply hnz
  apply Nat.eq_of_testBit_eq
  intro i
  rw [Nat.zero_testBit, Nat.testBit_and, Nat.testBit_xor, ← hd,
    Nat.testBit_and]
  rcases Nat.lt_or_ge i w with hiw | hiw
  · have h2 : Nat.testBit (2 ^ w - 1) i = true := by
      simp [Nat.testBit_two_pow_sub_one, hiw]
    rw [h2]
    cases Nat.testBit mask i <;> cases Nat.testBit dta i <;> rfl
  · have hmb : Nat.testBit mask i = false :=
      Nat.testBit_lt_two_pow
        (lt_of_lt_of_le hm (Nat.pow_le_pow_right (by norm_num) hiw))
    rw [hmb]
    cases Nat.testBit dta i <;> cases Nat.testBit (2 ^ w - 1) i <;> rfl

/-- Witness for C9: with 4-bit operands `mask = 0b0011` and
`value = 0b0100` (a bit set outside the mask), the sample `0b0111` does
not hit. -/
theorem c9_unmatchable_config_witness : hitOf 3 4 7 = false :=
  c9_unmatchable_config 4 3 4 (by decide) (by decide) 7

/-- Claim C10 (confirmed): a host `start` pulse is acted upon only in
IDLE; while the controller is in WAIT or RUN, the cycle's outcome (next
FSM state and buffer contents) is identical whether or not `start` is
pulsed, and in IDLE a `start` pulse moves the FSM to WAIT. -/
theorem c10_start_only_in_idle (cfg : StCfg) (s : StState) (i j : StIn)
    (hv : i.valid = j.valid) (hd : i.data = j.data) (hh : i.hit = j.hit)
    (hm : i.memReadyPulse = j.memReadyPulse) :
    (s.fsm ≠ FsmState.IDLE → step cfg i s = step cfg j s) ∧
    (s.fsm = FsmState.IDLE → i.start = true →
      (step cfg i s).fsm = FsmState.WAIT) := by
  constructor
  · intro hs
    cases hf : s.fsm with
    | IDLE => exact absurd hf hs
    | WAIT =>
      simp [step, nextFsm, doPush, doPop, memSinkValid, memSourceReady, hf,
        hv, hd, hh]
    | RUN =>
      simp [step, nextFsm, doPush, doPop, memSinkValid, memSourceReady, hf,
        hv, hd, hh]
  · intro hf hstart
    simp [step, nextFsm, hf, hstart]

theorem subRun_zero_value (ins : Nat → SubIn) : ∀ t, subRun 0 ins t = 0 := by
  intro t
  induction t with
  | zero => rfl
  | succ t ih => simp [subRun, subStep, ih]

/-- Always-active sub-sampler input: valid and ready on every cycle. -/
def subAllOn : Nat → SubIn := fun _ => ⟨true, true⟩

/-- Sub-sampler input valid on every cycle except cycle 3. -/
def c5gap : Nat → SubIn := fun t => if t = 3 then ⟨false, true⟩ else ⟨true, true⟩

/-- Claim C5 (amended): provided the input is valid on every cycle (as in
the analyzer, whose source is permanently valid), the Sub-Sampler counter
equals the number of accepted inputs modulo `count + 1`, and it emits
exactly the accepted inputs whose ordinal is congruent to `count` modulo
`count + 1` — one of every `count + 1` consecutive accepted inputs, in
order; `count = 0` makes output-valid equal input-valid on every cycle,
unconditionally. With a gap in input validity on a cycle whose counter
equals `count`, the counter resets without emitting, so the frozen claim
fails (see the counterexample). -/
theorem c5_subsampler_decimation (value : Nat) (ins : Nat → SubIn)
    (hw : value < 65536) (hv : ∀ t, (ins t).valid = true) :
    (∀ t, subRun value ins t = subAccCount ins t % (value + 1) ∧
      subEmitted value ins t =
        ((ins t).ready && (subAccCount ins t % (value + 1) == value))) ∧
    (value = 0 → ∀ ins2 : Nat → SubIn, ∀ t,
      subSrcValid value ins2 t = (ins2 t).valid) := by
  constructor
  · have key : ∀ t, subRun value ins t = subAccCount ins t % (value + 1) := by
      intro t
      induction t with
      | zero => rfl
      | succ t ih =>
        by_cases hr : (ins t).ready = true
        · have hacc : subAccepted ins t = true := by
            simp [subAccepted, hv t, hr]
          by_cases hd : subRun value ins t = value
          · have hc : subAccCount ins t % (value + 1) = value := by
              rw [← ih, hd]
            have hdm := Nat.div_add_mod (subAccCount ins t) (value + 1)
            have he : subAccCount ins t + 1 =
                (value + 1) + (value + 1) * (subAccCount ins t / (value + 1)) := by
              omega
            have h0 : (subAccCount ins t + 1) % (value + 1) = 0 := by
              rw [he, Nat.add_mul_mod_self_left, Nat.mod_self]
            simp [subRun, subStep, hr, hd, subAccCount, hacc, h0]
          · have hc : subAccCount ins t % (value + 1) ≠ value := by
              rw [← ih]
              exact hd
            have hclt : subAccCount ins t % (value + 1) < value + 1 :=
              Nat.mod_lt _ (by omega)
            have hdm := Nat.div_add_mod (subAccCount ins t) (value + 1)
            have he : subAccCount ins t + 1 =
                (subAccCount ins t % (value + 1) + 1) +
                  (value + 1) * (subAccCount ins t / (value + 1)) := by
              omega
            have hmod : (subAccCount ins t + 1) % (value + 1) =
                subAccCount ins t % (value + 1) + 1 := by
              rw [he, Nat.add_mul_mod_self_left]
              exact Nat.mod_eq_of_lt (by omega)
            have hsmall : (subRun value ins t + 1) % 65536 =
                subRun value ins t + 1 := by
              rw [ih]
              exact Nat.mod_eq_of_lt (by omega)
            simp [subRun, subStep, hr, hd, hv t, subAccCount, hacc, hmod,
              hsmall, ih]
            rw [if_neg hc]
            exact Nat.mod_eq_of_lt (by omega)
        · have hacc : subAccepted ins t = false := by
            simp [subAccepted, hr]
          simp [subRun, subStep, hr, subAccCount, hacc, ih]
    refine fun t => ⟨key t, ?_⟩
    simp [subEmitted, subSrcValid, hv t, key t, Bool.and_comm]
  · intro h0 ins2 t
    subst h0
    simp [subSrcValid, subRun_zero_value]

/-- Counterexample to C5 as frozen: with `count = 3` and the downstream
always ready, an input stream that is valid on every cycle except cycle 3
has six accepted inputs by cycle 7 (ordinals 0 to 5 at cycles 0, 1, 2, 4,
5, 6) but no emitted output at all through cycle 6 — in particular the
first four consecutive accepted inputs produce no output, because the
idle cycle 3 hits the `done` counter state and resets it without an
emission. -/
theorem c5_subsampler_decimation_cex :
    subAccepted c5gap 0 = true ∧ subAccepted c5gap 1 = true ∧
    subAccepted c5gap 2 = true ∧ subAccepted c5gap 3 = false ∧
    subAccepted c5gap 4 = true ∧ subAccepted c5gap 5 = true ∧
    subAccepted c5gap 6 = true ∧
    subAccCount c5gap 7 = 6 ∧
    (∀ t, t < 7 → subEmitted 3 c5gap t = false) := by
  decide

/-- Witness for C5 (amended): with `count = 3` and back-to-back accepted
inputs (Scenario C), the emitted samples among ordinals 0 to 7 are
exactly ordinals 3 and 7. -/
theorem c5_subsampler_decimation_witness :
    subEmitted 3 subAllOn 3 = true ∧ subEmitted 3 subAllOn 7 = true ∧
    subEmitted 3 subAllOn 0 = false ∧ subEmitted 3 subAllOn 1 = false ∧
    subEmitted 3 subAllOn 2 = false ∧ subEmitted 3 subAllOn 4 = false ∧
    subEmitted 3 subAllOn 5 = false ∧ subEmitted 3 subAllOn 6 = false := by
  have h := (c5_subsampler_decimation 3 subAllOn (by decide) fun t => rfl).1
  refine ⟨?_, ?_, ?_, ?_, ?_, ?_, ?_, ?_⟩ <;>
    · rw [(h _).2]
      decide

/-- Trace for C3: start, two samples, then an idle cycle. -/
def c3ins : Nat → StIn := insOf [cexStart, cexV 1, cexV 2, cexIdle]

/-- Trace for C3's witness: start at cycle 0, then a sample every cycle
(the sample of cycle `u` carries data `u`), never hitting. -/
def c3wins : Nat → StIn := fun t =>
  match t with
  | 0 => cexStart
  | u => cexV u

/-- Claim C3 (amended): in WAIT every accepted sample is written and the
buffer drains exactly when the fill level is at least `offset`; when the
trigger never matches and a sample is accepted on every cycle (with
`1 <= offset < capacity`), the controller stays in WAIT forever and at
every cycle `t >= 1` the buffer holds exactly the most recent
`min (t - 1) offset` samples — the most recent `offset` samples once
steady state is reached, never more. With gaps in input validity the fill
level instead dips to `offset - 1` after a drain cycle with no concurrent
write (see the counterexample). -/
theorem c3_wait_sliding_window (cfg : StCfg) (ins : Nat → StIn)
    (hstart : (ins 0).start = true)
    (hv : ∀ t, 1 ≤ t → (ins t).valid = true)
    (hh : ∀ t, (ins t).hit = false)
    (ho : 1 ≤ cfg.offset) (hc : cfg.offset < cfg.capacity) :
    ∀ t, 1 ≤ t →
      (run cfg ins t).fsm = FsmState.WAIT ∧
      (run cfg ins t).q =
        window (fun u => (ins u).data) (t - min (t - 1) cfg.offset)
          (min (t - 1) cfg.offset) := by
  intro t
  induction t with
  | zero =>
    intro h
    exact absurd h (by omega)
  | succ t ih =>
    intro _
    rcases Nat.eq_zero_or_pos t with ht0 | ht1
    · subst ht0
      constructor
      · rw [run_succ]
        simp [step, nextFsm, run, stInit, hstart]
      · rw [run_succ]
        simp [step, doPop, doPush, memSinkValid, memSourceValid, run,
          stInit, window]
    · obtain ⟨hW, hq⟩ := ih ht1
      have hvt : (ins t).valid = true := hv t ht1
      have hlen : (run cfg ins t).q.length = min (t - 1) cfg.offset := by
        rw [hq, window_length]
      have hpush : doPush cfg (run cfg ins t) (ins t) = true := by
        simp [doPush, memSinkValid, memSinkReady, hW, hvt, hlen]
        omega
      have hfsm : (run cfg ins (t + 1)).fsm = FsmState.WAIT := by
        rw [run_succ]
        simp [step, nextFsm, hW, hh t]
      refine ⟨hfsm, ?_⟩
      rcases Nat.lt_or_ge (t - 1) cfg.offset with hcase | hcase
      · have hm : min (t - 1) cfg.offset = t - 1 :=
          Nat.min_eq_left (by omega)
        have hm2 : min t cfg.offset = t := Nat.min_eq_left (by omega)
        have hsr : memSourceReady cfg (run cfg ins t) (ins t) = false := by
          simp [memSourceReady, hW, hlen, hm]
          omega
        have hpop : doPop cfg (run cfg ins t) (ins t) = false := by
          simp [doPop, hsr]
        rw [run_succ]
        simp only [step, hpop, hpush, if_true, if_false, Bool.false_eq_true,
          ite_true, ite_false]
        rw [hq, hm]
        rw [show t + 1 - 1 = t from by omega]
        rw [hm2]
        rw [show t - (t - 1) = 1 from by omega]
        rw [show t + 1 - t = 1 from by omega]
        have hwc : window (fun u => (ins u).data) 1 t =
            window (fun u => (ins u).data) 1 (t - 1) ++
              [(fun u => (ins u).data) (1 + (t - 1))] := by
          conv_lhs => rw [show t = t - 1 + 1 from by omega]
          exact window_concat _ 1 (t - 1)
        rw [hwc, show 1 + (t - 1) = t from by omega]
      · have hm : min (t - 1) cfg.offset = cfg.offset := Nat.min_eq_right hcase
        have hm2 : min t cfg.offset = cfg.offset :=
          Nat.min_eq_right (by omega)
        have hlen2 : (run cfg ins t).q.length = cfg.offset := by
          rw [hlen, hm]
        have hne : (run cfg ins t).q.isEmpty = false := by
          cases hqq : (run cfg ins t).q with
          | nil =>
            rw [hqq] at hlen2
            simp at hlen2
            omega
          | cons a l => rfl
        have hsr : memSourceReady cfg (run cfg ins t) (ins t) = true := by
          simp [memSourceReady, hW, hlen2]
        have hpop : doPop cfg (run cfg ins t) (ins t) = true := by
          simp [doPop, memSourceValid, hne, hsr]
        rw [run_succ]
        simp only [step, hpop, hpush, if_true, if_false, Bool.false_eq_true,
          ite_true, ite_false]
        rw [hq, hm]
        rw [show t + 1 - 1 = t from by omega]
        rw [hm2]
        obtain ⟨k, hk⟩ : ∃ k, cfg.offset = k + 1 := ⟨cfg.offset - 1, by omega⟩
        rw [hk]
        have htail : (window (fun u => (ins u).data) (t - (k + 1)) (k + 1)).tail =
            window (fun u => (ins u).data) (t - (k + 1) + 1) k := rfl
        rw [htail, show t - (k + 1) + 1 = t - k from by
            have : k + 1 ≤ t := by omega
            omega,
          show t + 1 - (k + 1) = t - k from by omega,
          window_concat, show t - k + k = t from by
            have : k + 1 ≤ t := by omega
            omega]

/-- Counterexample to C3 as frozen: with `offset = 2` and a trigger that
never matches, the buffer reaches the steady-state fill level `offset` at
cycle 3, but an idle input cycle drains it to a single sample at cycle 4
while the controller is still in WAIT — the buffer does not hold exactly
the most recent `offset` samples. -/
theorem c3_wait_sliding_window_cex :
    (∀ u, u < 6 → (c3ins u).hit = false) ∧
    (run c7cfg c3ins 3).fsm = FsmState.WAIT ∧
    (run c7cfg c3ins 3).q.length = c7cfg.offset ∧
    (run c7cfg c3ins 4).fsm = FsmState.WAIT ∧
    (run c7cfg c3ins 4).q.length = 1 ∧
    c7cfg.offset = 2 := by
  decide

/-- Witness for C3 (amended): with `offset = 2`, a sample accepted each
cycle and no trigger match, cycle 5 is still in WAIT and the buffer holds
exactly the most recent two samples. -/
theorem c3_wait_sliding_window_witness :
    (run c7cfg c3wins 5).fsm = FsmState.WAIT ∧
    (run c7cfg c3wins 5).q =
      window (fun u => (c3wins u).data) (5 - min (5 - 1) c7cfg.offset)
        (min (5 - 1) c7cfg.offset) :=
  c3_wait_sliding_window c7cfg c3wins (by decide)
    (fun t ht => by
      cases t with
      | zero => omega
      | succ u => rfl)
    (fun t => by
      cases t with
      | zero => rfl
      | succ u => rfl)
    (by decide) (by decide) 5 (by decide)

/-- Witness for C10: in WAIT with one buffered word, an input cycle with
the `start` pulse high behaves exactly as the same cycle with it low. -/
theorem c10_start_only_in_idle_witness :
    step ⟨4, 3, 2⟩ ⟨true, 7, false, true, false⟩ ⟨FsmState.WAIT, [5]⟩ =
    step ⟨4, 3, 2⟩ ⟨true, 7, false, false, false⟩ ⟨FsmState.WAIT, [5]⟩ :=
  (c10_start_only_in_idle ⟨4, 3, 2⟩ ⟨FsmState.WAIT, [5]⟩
    ⟨true, 7, false, true, false⟩ ⟨true, 7, false, false, false⟩
    rfl rfl rfl rfl).1 (by decide)

end Litescope
